import Mathlib

set_option maxHeartbeats 1000000

/-! Shallow embedding of the Hex publish plugin (`plugin.go`) from
`relicta-tech/plugin-hex`: path and organization validators, configuration
resolution, command construction, and the publish orchestration, together
with proofs of the specification's claims about them.

Strings are modelled as Lean `String`s; the path-manipulation core works on
`List Char` (Go strings are byte slices; all relevant data is ASCII). -/

/-- A value of the raw untyped configuration mapping (`map[string]any` in the
source); the plugin only ever reads strings and booleans from it. -/
inductive ConfigVal where
  | str (s : String)
  | bool (b : Bool)
deriving DecidableEq

/-- The raw configuration mapping: key to optional value. -/
def RawConfig : Type := String → Option ConfigVal

/-- The process environment, Go `os.Getenv` style: an unset variable reads as
the empty string. -/
def Env : Type := String → String

/-- The two-character parent-directory segment `..`. -/
def dd : List Char := ['.', '.']

/-- Split a character list at every `/`, Go `strings.Split(s, "/")` style:
`splitSlash "a//b" = ["a", "", "b"]` and `splitSlash "" = [""]`. -/
def splitSlash : List Char → List (List Char)
  | [] => [[]]
  | c :: t =>
    if c = '/' then [] :: splitSlash t
    else
      match splitSlash t with
      | [] => [[c]]
      | h :: r => (c :: h) :: r

/-- One step of the lexical `..`-resolution performed by Go `filepath.Clean`:
a `..` component pops the previous component unless the accumulated
components are all `..` (then it is kept for a relative path, dropped at the
root of an absolute one); any other component is appended. -/
def stepDots (rooted : Bool) (acc : List (List Char)) (part : List Char) : List (List Char) :=
  if part = dd then
    match acc.getLast? with
    | some last => if last = dd then acc ++ [dd] else acc.dropLast
    | none => if rooted then acc else acc ++ [dd]
  else acc ++ [part]

/-- The components of Go `filepath.Clean path` (Unix rules): split on `/`,
drop empty and `.` components, then resolve `..` components lexically. -/
def cleanParts (rooted : Bool) (l : List Char) : List (List Char) :=
  ((splitSlash l).filter fun p => decide (p ≠ [] ∧ p ≠ ['.'])).foldl (stepDots rooted) []

/-- Go `filepath.IsAbs` on Unix: the path begins with `/`. -/
def isRooted (l : List Char) : Bool := l.head? = some '/'

/-- Go `strings.Join(parts, "/")`. -/
def joinSlash : List (List Char) → List Char
  | [] => []
  | [p] => p
  | p :: r => p ++ '/' :: joinSlash r

/-- Go `filepath.Clean` on Unix: the cleaned components joined by `/`,
prefixed by `/` when the input was absolute, and `.` for an empty result. -/
def clean (l : List Char) : List Char :=
  let parts := cleanParts (isRooted l) l
  if isRooted l then '/' :: joinSlash parts
  else if parts = [] then ['.']
  else joinSlash parts

/-- Go `strings.HasPrefix s pat` as `hasPref pat s`: `pat` begins `s`. -/
def hasPref : List Char → List Char → Bool
  | [], _ => true
  | _ :: _, [] => false
  | p :: ps, c :: cs => p = c && hasPref ps cs

/-- Go `strings.Contains s pat` as `containsSeq pat s`: `pat` occurs
contiguously somewhere in `s`. -/
def containsSeq (pat : List Char) : List Char → Bool
  | [] => hasPref pat []
  | c :: t => hasPref pat (c :: t) || containsSeq pat t

/-- Go `validatePath` (plugin.go, lines 82-101): `none` means the path is
accepted. The empty path is accepted; otherwise the path is cleaned and
rejected when the cleaned path is absolute, begins with `..`, or contains
the substring `/..`. -/
def validatePath (path : String) : Option String :=
  if path = "" then none
  else
    let cleaned := clean path.data
    if isRooted cleaned then some "absolute paths are not allowed"
    else if hasPref dd cleaned || containsSeq ('/' :: dd) cleaned then
      some "path traversal detected: cannot use \x27..\x27 to escape working directory"
    else none

/-- The character class `[A-Za-z0-9_-]` checked by Go `validateOrganization`. -/
def orgChar (r : Char) : Bool :=
  ('a' ≤ r && r ≤ 'z') || ('A' ≤ r && r ≤ 'Z') || ('0' ≤ r && r ≤ '9')
    || r = '-' || r = '_'

/-- Go `len` of a string: its UTF-8 byte length. -/
def byteLen (s : String) : Nat := (s.data.map Char.utf8Size).sum

/-- Go `validateOrganization` (plugin.go, lines 104-127): `none` means the
name is accepted. Empty is accepted; otherwise the byte length must be at
most 128 and every character must be in `[A-Za-z0-9_-]`. -/
def validateOrganization (org : String) : Option String :=
  if org = "" then none
  else if 128 < byteLen org then some "organization name too long (max 128 characters)"
  else if org.data.all orgChar then none
  else some "organization name contains invalid characters: only alphanumeric, hyphens, and underscores are allowed"

/-- Go `strings.TrimPrefix(v, "v")`: drop a single leading `v` when present. -/
def trimV : List Char → List Char
  | [] => []
  | c :: t => if c = 'v' then t else c :: t

/-- The version normalization performed at plugin.go line 189. -/
def normalizeVersion (v : String) : String := ⟨trimV v.data⟩

/-- Go `Config` (plugin.go, lines 37-43): the resolved typed configuration. -/
structure Config where
  apiKey : String
  organization : String
  replace : Bool
  yes : Bool
  workDir : String
deriving DecidableEq

/-- The release context supplied by the host; only `version` is consumed by
this plugin. -/
structure ReleaseContext where
  version : String
  tagName : String
  branch : String
  commitSHA : String
deriving DecidableEq

/-- Go `plugin.ExecuteResponse`: success flag, message, error string and the
named outputs (absent fields modelled as `""` / `[]`). -/
structure ExecuteResponse where
  success : Bool
  message : String
  error : String
  outputs : List (String × ConfigVal)
deriving DecidableEq

/-- One invocation of the `CommandExecutor` interface: command name,
arguments, environment overrides, and working directory. -/
structure ExecCall where
  name : String
  args : List String
  env : List String
  dir : String
deriving DecidableEq

/-- An executor: maps a call to the captured combined output and an optional
error (modelled by its message; `none` means the subprocess succeeded). -/
def Executor : Type := ExecCall → String × Option String

/-- The argument list built by `publish` (plugin.go, lines 174-187):
`hex.publish`, then `--organization <org>` iff the organization is
non-empty, then `--replace` iff replace, then `--yes` iff yes. -/
def buildArgs (cfg : Config) : List String :=
  ["hex.publish"]
    ++ (if cfg.organization ≠ "" then ["--organization", cfg.organization] else [])
    ++ (if cfg.replace then ["--replace"] else [])
    ++ (if cfg.yes then ["--yes"] else [])

/-- Go `publish` (plugin.go, lines 157-235), instrumented to also return the
list of executor invocations it makes: validate the working directory and
the organization, build the arguments, short-circuit on dry-run, check the
credential, run `mix` through the executor and map the outcome. -/
def publish (exec : Executor) (cfg : Config) (releaseCtx : ReleaseContext)
    (dryRun : Bool) : ExecuteResponse × List ExecCall :=
  match validatePath cfg.workDir with
  | some e => (⟨false, "", "invalid work_dir: " ++ e, []⟩, [])
  | none =>
    match validateOrganization cfg.organization with
    | some e => (⟨false, "", "invalid organization: " ++ e, []⟩, [])
    | none =>
      let args := buildArgs cfg
      let version := normalizeVersion releaseCtx.version
      if dryRun then
        (⟨true, "Would publish package to Hex.pm", "",
          [("command", .str ("mix " ++ String.intercalate " " args)),
           ("version", .str version),
           ("organization", .str cfg.organization),
           ("replace", .bool cfg.replace)]⟩, [])
      else if cfg.apiKey = "" then
        (⟨false, "",
          "HEX_API_KEY is required: set api_key in config or HEX_API_KEY environment variable",
          []⟩, [])
      else
        let call : ExecCall := ⟨"mix", args, ["HEX_API_KEY=" ++ cfg.apiKey], cfg.workDir⟩
        match exec call with
        | (output, some e) =>
          (⟨false, "", "mix hex.publish failed: " ++ e ++ "\nOutput: " ++ output, []⟩, [call])
        | (output, none) =>
          (⟨true, "Published package v" ++ version ++ " to Hex.pm", "",
            [("version", .str version),
             ("organization", .str cfg.organization),
             ("output", .str output)]⟩, [call])

/-- Modelled from the spec: `ConfigParser.GetString` of the
`relicta-plugin-sdk` `helpers` package, which is not among this repository's
sources. Per spec section 4.2 the resolution order is: explicit string value
in the raw configuration, then the named environment variable (when a name
is given and the variable is non-empty; the environment is Go-style, so an
unset variable reads as `""`), then the hard default. -/
def getString (raw : RawConfig) (env : Env) (key envKey dflt : String) : String :=
  match raw key with
  | some (.str s) => s
  | _ => if envKey ≠ "" ∧ env envKey ≠ "" then env envKey else dflt

/-- Modelled from the spec: `ConfigParser.GetBool` of the
`relicta-plugin-sdk` `helpers` package, which is not among this repository's
sources. Per spec section 4.2 a boolean field accepts a native boolean or
the case-sensitive strings `"true"`/`"false"`, and otherwise resolves to the
default. -/
def getBool (raw : RawConfig) (key : String) (dflt : Bool) : Bool :=
  match raw key with
  | some (.bool b) => b
  | some (.str s) => if s = "true" then true else if s = "false" then false else dflt
  | none => dflt

/-- Go `parseConfig` (plugin.go, lines 130-140), over the spec-modelled SDK
helpers. -/
def parseConfig (raw : RawConfig) (env : Env) : Config :=
  ⟨getString raw env "api_key" "HEX_API_KEY" "",
   getString raw env "organization" "HEX_ORGANIZATION" "",
   getBool raw "replace" false,
   getBool raw "yes" true,
   getString raw env "work_dir" "" "."⟩

/-- Modelled from the spec: the name of the single lifecycle hook this
plugin handles, `plugin.HookPostPublish` of the SDK (hooks are string-typed;
the SDK's literal value is not among this repository's sources). -/
def hookPostPublish : String := "post_publish"

/-- Go `Execute` (plugin.go, lines 143-155): resolve the configuration and
dispatch on the hook, delegating the post-publish hook to `publish` and
answering every other hook with a trivial success response. -/
def Execute (exec : Executor) (hook : String) (raw : RawConfig) (env : Env)
    (releaseCtx : ReleaseContext) (dryRun : Bool) : ExecuteResponse × List ExecCall :=
  let cfg := parseConfig raw env
  if hook = hookPostPublish then publish exec cfg releaseCtx dryRun
  else (⟨true, "Hook " ++ hook ++ " not handled", "", []⟩, [])

/-- The raw configuration that sets only `api_key`. -/
def rawWithKey (v : String) : RawConfig := fun k => if k = "api_key" then some (.str v) else none

/-- The empty raw configuration. -/
def rawEmpty : RawConfig := fun _ => none

/-- The empty environment. -/
def envEmpty : Env := fun _ => ""

/-- The environment that sets only `HEX_API_KEY`. -/
def envWithKey (v : String) : Env := fun k => if k = "HEX_API_KEY" then v else ""

/-- An executor whose subprocess always succeeds with the given output. -/
def execOutput (out : String) : Executor := fun _ => (out, none)

example : validatePath "a/../b" = none := by decide
example : validatePath "../x" = some "path traversal detected: cannot use \x27..\x27 to escape working directory" := by decide
example : validatePath "/etc" = some "absolute paths are not allowed" := by decide
example : validatePath "" = none := by decide
example : validatePath "." = none := by decide
example : validatePath "..foo" ≠ none := by decide
example : validateOrganization "my-org" = none := by decide
example : validateOrganization "my org" ≠ none := by decide

/-! ### Auxiliary lemmas about characters and byte lengths -/

/-- Every character of the organization character class is one UTF-8 byte. -/
theorem orgChar_utf8Size (c : Char) (h : orgChar c = true) : c.utf8Size = 1 := by
  have h127 : c.val ≤ 0x7F := by
    simp only [orgChar, Bool.or_eq_true, Bool.and_eq_true, decide_eq_true_eq] at h
    rcases h with ((((⟨h1, h2⟩ | ⟨h1, h2⟩) | ⟨h1, h2⟩) | h1) | h1)
    · exact UInt32.le_trans (Char.le_def.mp h2) (by decide)
    · exact UInt32.le_trans (Char.le_def.mp h2) (by decide)
    · exact UInt32.le_trans (Char.le_def.mp h2) (by decide)
    · subst h1; decide
    · subst h1; decide
  rw [Char.utf8Size]
  have e : UInt32.ofNatCore 127 Char.utf8Size.proof_1 = (127 : UInt32) := rfl
  rw [e, if_pos h127]

/-- UTF-8 byte length of a list of one-byte characters is its length. -/
theorem utf8_sum_eq_length (l : List Char) (h : ∀ c ∈ l, orgChar c = true) :
    (l.map Char.utf8Size).sum = l.length := by
  induction l with
  | nil => rfl
  | cons c t ih =>
    simp only [List.map_cons, List.sum_cons, List.length_cons]
    rw [orgChar_utf8Size c (h c (List.mem_cons_self c t)),
      ih fun x hx => h x (List.mem_cons_of_mem c hx)]
    omega

/-- A string never has more characters than UTF-8 bytes. -/
theorem length_le_utf8_sum (l : List Char) : l.length ≤ (l.map Char.utf8Size).sum := by
  induction l with
  | nil => exact Nat.le_refl 0
  | cons c t ih =>
    simp only [List.map_cons, List.sum_cons, List.length_cons]
    have := Char.utf8Size_pos c
    omega

/-! ### C4: the organization validator -/

/-- C4: `validateOrganization` succeeds exactly on the strings over the
alphabet `[A-Za-z0-9_-]` of length at most 128 (the empty string included);
it fails on every string with a character outside that set or longer
than 128. -/
theorem validateOrganization_none_iff (s : String) :
    validateOrganization s = none ↔
      s.data.length ≤ 128 ∧ ∀ c ∈ s.data, orgChar c = true := by
  by_cases hs : s = ""
  · subst hs; decide
  · rw [validateOrganization, if_neg hs]
    by_cases hall : ∀ c ∈ s.data, orgChar c = true
    · have hb : byteLen s = s.data.length := utf8_sum_eq_length s.data hall
      by_cases hlen : 128 < byteLen s
      · rw [if_pos hlen]
        constructor
        · intro h; exact Option.noConfusion h
        · rintro ⟨hle, -⟩; exact absurd hle (by omega)
      · rw [if_neg hlen, if_pos (List.all_eq_true.mpr hall)]
        constructor
        · intro _; exact ⟨by omega, hall⟩
        · intro _; rfl
    · have hr : ¬(s.data.length ≤ 128 ∧ ∀ c ∈ s.data, orgChar c = true) :=
        fun h => hall h.2
      have hnall : ¬s.data.all orgChar = true :=
        fun hc => hall (List.all_eq_true.mp hc)
      by_cases hlen : 128 < byteLen s
      · rw [if_pos hlen]
        exact iff_of_false (fun h => Option.noConfusion h) hr
      · rw [if_neg hlen, if_neg hnall]
        exact iff_of_false (fun h => Option.noConfusion h) hr

/-! ### C6: version normalization -/

/-- C6: version normalization strips exactly one leading literal `v` and
nothing else: `"v" ++ s` normalizes to `s`, a string not starting with `v`
is unchanged, and a dry-run with version `"v2.0.0"` reports
version `"2.0.0"`. -/
theorem normalizeVersion_spec :
    (∀ s : String, normalizeVersion ("v" ++ s) = s)
    ∧ (∀ s : String, s.data.head? ≠ some 'v' → normalizeVersion s = s)
    ∧ (∀ exec : Executor,
        publish exec ⟨"", "", false, true, "."⟩ ⟨"v2.0.0", "", "", ""⟩ true
          = (⟨true, "Would publish package to Hex.pm", "",
              [("command", .str "mix hex.publish --yes"),
               ("version", .str "2.0.0"),
               ("organization", .str ""),
               ("replace", .bool false)]⟩, [])) := by
  refine ⟨fun s => ?_, fun s h => ?_, fun exec => rfl⟩
  · apply String.ext
    show (trimV ("v" ++ s).data) = s.data
    rw [String.data_append]
    show trimV ('v' :: s.data) = s.data
    simp [trimV]
  · apply String.ext
    show trimV s.data = s.data
    cases hd : s.data with
    | nil => rfl
    | cons c t =>
      have hc : c ≠ 'v' := by
        intro hcv
        exact h (by rw [hd, hcv]; rfl)
      simp [trimV, hc]

/-- Witness for C6 at concrete versions. -/
theorem normalizeVersion_spec_witness :
    normalizeVersion "v1.2.3" = "1.2.3" ∧ normalizeVersion "2.0.0" = "2.0.0"
    ∧ publish (execOutput "") ⟨"", "", false, true, "."⟩ ⟨"v2.0.0", "", "", ""⟩ true
        = (⟨true, "Would publish package to Hex.pm", "",
            [("command", .str "mix hex.publish --yes"),
             ("version", .str "2.0.0"),
             ("organization", .str ""),
             ("replace", .bool false)]⟩, []) :=
  ⟨normalizeVersion_spec.1 "1.2.3",
   normalizeVersion_spec.2.1 "2.0.0" (by decide),
   normalizeVersion_spec.2.2 (execOutput "")⟩

/-! ### C2: dry-run preview -/

/-- C2: for every valid configuration a dry-run publish succeeds without
invoking the executor and without reading the credential, and reports the
command text built in fixed argument order; in particular version `"1.0.0"`,
organization `"my-org"`, replace and auto-confirm true yield exactly
`"mix hex.publish --organization my-org --replace --yes"` and
version `"1.0.0"`, for any credential. -/
theorem publish_dryRun_spec :
    (∀ (exec : Executor) (cfg : Config) (rctx : ReleaseContext),
      validatePath cfg.workDir = none → validateOrganization cfg.organization = none →
      publish exec cfg rctx true
        = (⟨true, "Would publish package to Hex.pm", "",
            [("command", .str ("mix " ++ String.intercalate " " (buildArgs cfg))),
             ("version", .str (normalizeVersion rctx.version)),
             ("organization", .str cfg.organization),
             ("replace", .bool cfg.replace)]⟩, []))
    ∧ (∀ (exec : Executor) (apiKey : String),
      publish exec ⟨apiKey, "my-org", true, true, "."⟩ ⟨"1.0.0", "", "", ""⟩ true
        = (⟨true, "Would publish package to Hex.pm", "",
            [("command", .str "mix hex.publish --organization my-org --replace --yes"),
             ("version", .str "1.0.0"),
             ("organization", .str "my-org"),
             ("replace", .bool true)]⟩, [])) := by
  constructor
  · intro exec cfg rctx hw ho
    simp only [publish, hw, ho, if_pos]
  · intro exec apiKey
    rfl

/-- Witness for C2 at a concrete valid configuration. -/
theorem publish_dryRun_spec_witness :
    publish (execOutput "") ⟨"", "org1", false, true, "sub/dir"⟩ ⟨"1.0.0", "", "", ""⟩ true
      = (⟨true, "Would publish package to Hex.pm", "",
          [("command", .str "mix hex.publish --organization org1 --yes"),
           ("version", .str "1.0.0"),
           ("organization", .str "org1"),
           ("replace", .bool false)]⟩, []) :=
  publish_dryRun_spec.1 (execOutput "") ⟨"", "org1", false, true, "sub/dir"⟩
    ⟨"1.0.0", "", "", ""⟩ (by decide) (by decide)

/-! ### C3: missing credential -/

/-- C3: a non-dry-run publish that passes both validators but has an empty
credential fails with the fixed error naming `api_key` and `HEX_API_KEY`,
and the executor is never invoked. -/
theorem publish_missing_credential (exec : Executor) (cfg : Config)
    (rctx : ReleaseContext) (hw : validatePath cfg.workDir = none)
    (ho : validateOrganization cfg.organization = none) (hk : cfg.apiKey = "") :
    publish exec cfg rctx false
      = (⟨false, "",
          "HEX_API_KEY is required: set api_key in config or HEX_API_KEY environment variable",
          []⟩, []) := by
  simp [publish, hw, ho, hk]

/-- Witness for C3 at a concrete configuration. -/
theorem publish_missing_credential_witness :
    publish (execOutput "done") ⟨"", "my-org", false, true, "."⟩ ⟨"1.0.0", "", "", ""⟩ false
      = (⟨false, "",
          "HEX_API_KEY is required: set api_key in config or HEX_API_KEY environment variable",
          []⟩, []) :=
  publish_missing_credential (execOutput "done") ⟨"", "my-org", false, true, "."⟩
    ⟨"1.0.0", "", "", ""⟩ (by decide) (by decide) rfl

/-! ### C7: validation failures -/

/-- C7: a publish request whose working directory or organization fails
validation returns success=false with the error prefixed
`invalid work_dir: ` or `invalid organization: ` respectively, dry-run or
not, and the executor is never invoked; in particular organization
`"my org; rm -rf /"` is rejected with zero executor calls. -/
theorem publish_invalid_config :
    (∀ (exec : Executor) (cfg : Config) (rctx : ReleaseContext) (dryRun : Bool) (e : String),
      validatePath cfg.workDir = some e →
      publish exec cfg rctx dryRun = (⟨false, "", "invalid work_dir: " ++ e, []⟩, []))
    ∧ (∀ (exec : Executor) (cfg : Config) (rctx : ReleaseContext) (dryRun : Bool) (e : String),
      validatePath cfg.workDir = none → validateOrganization cfg.organization = some e →
      publish exec cfg rctx dryRun = (⟨false, "", "invalid organization: " ++ e, []⟩, []))
    ∧ (∀ (exec : Executor) (dryRun : Bool) (apiKey : String),
      publish exec ⟨apiKey, "my org; rm -rf /", false, true, "."⟩ ⟨"1.0.0", "", "", ""⟩ dryRun
        = (⟨false, "",
            "invalid organization: organization name contains invalid characters: only alphanumeric, hyphens, and underscores are allowed",
            []⟩, [])) :=
  ⟨fun exec cfg rctx dryRun e hw => by simp [publish, hw],
   fun exec cfg rctx dryRun e hw ho => by simp [publish, hw, ho],
   fun exec dryRun apiKey => rfl⟩

/-- Witness for C7 at a concrete traversal path. -/
theorem publish_invalid_config_witness :
    publish (execOutput "") ⟨"key", "ok-org", false, true, "../escape"⟩ ⟨"1.0.0", "", "", ""⟩ false
      = (⟨false, "",
          "invalid work_dir: path traversal detected: cannot use \x27..\x27 to escape working directory",
          []⟩, []) :=
  publish_invalid_config.1 (execOutput "") ⟨"key", "ok-org", false, true, "../escape"⟩
    ⟨"1.0.0", "", "", ""⟩ false _ (by decide)

/-! ### C8: executor outcome determines the response -/

/-- C8: when the executor is invoked, the response mirrors the subprocess
outcome: on success the message reports the published version and the
outputs carry version, organization and raw output; on failure the error
embeds the underlying failure and the captured output. Exactly one executor
call is made, with the built arguments, credential environment and working
directory. -/
theorem publish_exec_outcome :
    (∀ (exec : Executor) (cfg : Config) (rctx : ReleaseContext) (out : String),
      validatePath cfg.workDir = none → validateOrganization cfg.organization = none →
      cfg.apiKey ≠ "" →
      exec ⟨"mix", buildArgs cfg, ["HEX_API_KEY=" ++ cfg.apiKey], cfg.workDir⟩ = (out, none) →
      publish exec cfg rctx false
        = (⟨true, "Published package v" ++ normalizeVersion rctx.version ++ " to Hex.pm", "",
            [("version", .str (normalizeVersion rctx.version)),
             ("organization", .str cfg.organization),
             ("output", .str out)]⟩,
           [⟨"mix", buildArgs cfg, ["HEX_API_KEY=" ++ cfg.apiKey], cfg.workDir⟩]))
    ∧ (∀ (exec : Executor) (cfg : Config) (rctx : ReleaseContext) (out errMsg : String),
      validatePath cfg.workDir = none → validateOrganization cfg.organization = none →
      cfg.apiKey ≠ "" →
      exec ⟨"mix", buildArgs cfg, ["HEX_API_KEY=" ++ cfg.apiKey], cfg.workDir⟩ = (out, some errMsg) →
      publish exec cfg rctx false
        = (⟨false, "", "mix hex.publish failed: " ++ errMsg ++ "\nOutput: " ++ out, []⟩,
           [⟨"mix", buildArgs cfg, ["HEX_API_KEY=" ++ cfg.apiKey], cfg.workDir⟩])) := by
  constructor
  · intro exec cfg rctx out hw ho hk hx
    simp [publish, hw, ho, hk, hx]
  · intro exec cfg rctx out errMsg hw ho hk hx
    simp [publish, hw, ho, hk, hx]

/-- Witness for C8: a successful run with output `"Published v1.0.0"`. -/
theorem publish_exec_outcome_witness :
    publish (execOutput "Published v1.0.0") ⟨"secret", "", false, true, "."⟩
        ⟨"1.0.0", "", "", ""⟩ false
      = (⟨true, "Published package v1.0.0 to Hex.pm", "",
          [("version", .str "1.0.0"),
           ("organization", .str ""),
           ("output", .str "Published v1.0.0")]⟩,
         [⟨"mix", ["hex.publish", "--yes"], ["HEX_API_KEY=secret"], "."⟩]) :=
  publish_exec_outcome.1 (execOutput "Published v1.0.0") ⟨"secret", "", false, true, "."⟩
    ⟨"1.0.0", "", "", ""⟩ "Published v1.0.0" (by decide) (by decide) (by decide) rfl

/-! ### C9: unhandled hooks -/

/-- C9: for every hook other than the post-publish hook, `Execute` succeeds
trivially with message `Hook <hook> not handled`, for every configuration,
environment, release context and dry-run flag, and makes no executor call. -/
theorem execute_unhandled_hook (exec : Executor) (hook : String) (raw : RawConfig)
    (env : Env) (rctx : ReleaseContext) (dryRun : Bool) (h : hook ≠ hookPostPublish) :
    Execute exec hook raw env rctx dryRun
      = (⟨true, "Hook " ++ hook ++ " not handled", "", []⟩, []) := by
  simp [Execute, h]

/-- Witness for C9 at the pre-publish hook with an invalid configuration. -/
theorem execute_unhandled_hook_witness :
    Execute (execOutput "") "pre_publish" (rawWithKey "k") envEmpty
        ⟨"1.0.0", "", "", ""⟩ false
      = (⟨true, "Hook pre_publish not handled", "", []⟩, []) :=
  execute_unhandled_hook (execOutput "") "pre_publish" (rawWithKey "k") envEmpty
    ⟨"1.0.0", "", "", ""⟩ false (by decide)

/-! ### C5: configuration resolution -/

/-- C5: per-field resolution order is explicit raw value, then the named
environment fallback (`HEX_API_KEY` for the credential, `HEX_ORGANIZATION`
for the organization, none for the working directory), then the hard
default; the empty configuration with an empty environment resolves to all
defaults, and an explicit `api_key` beats `HEX_API_KEY`. -/
theorem parseConfig_resolution :
    (∀ (raw : RawConfig) (env : Env) (v : String),
      raw "api_key" = some (.str v) → (parseConfig raw env).apiKey = v)
    ∧ (∀ (raw : RawConfig) (env : Env),
      raw "api_key" = none → env "HEX_API_KEY" ≠ "" →
      (parseConfig raw env).apiKey = env "HEX_API_KEY")
    ∧ (∀ (raw : RawConfig) (env : Env),
      raw "api_key" = none → env "HEX_API_KEY" = "" →
      (parseConfig raw env).apiKey = "")
    ∧ (∀ (raw : RawConfig) (env : Env) (v : String),
      raw "organization" = some (.str v) → (parseConfig raw env).organization = v)
    ∧ (∀ (raw : RawConfig) (env : Env),
      raw "organization" = none → env "HEX_ORGANIZATION" ≠ "" →
      (parseConfig raw env).organization = env "HEX_ORGANIZATION")
    ∧ (∀ (raw : RawConfig) (env : Env) (b : Bool),
      raw "replace" = some (.bool b) → (parseConfig raw env).replace = b)
    ∧ (∀ (raw : RawConfig) (env : Env),
      raw "replace" = none → (parseConfig raw env).replace = false)
    ∧ (∀ (raw : RawConfig) (env : Env) (b : Bool),
      raw "yes" = some (.bool b) → (parseConfig raw env).yes = b)
    ∧ (∀ (raw : RawConfig) (env : Env),
      raw "yes" = none → (parseConfig raw env).yes = true)
    ∧ (∀ (raw : RawConfig) (env : Env) (v : String),
      raw "work_dir" = some (.str v) → (parseConfig raw env).workDir = v)
    ∧ (∀ (raw : RawConfig) (env env' : Env),
      (parseConfig raw env).workDir = (parseConfig raw env').workDir)
    ∧ (∀ (raw : RawConfig),
      raw "work_dir" = none → ∀ env : Env, (parseConfig raw env).workDir = ".")
    ∧ parseConfig rawEmpty envEmpty = ⟨"", "", false, true, "."⟩
    ∧ (∀ (raw : RawConfig) (env : Env),
      raw "api_key" = some (.str "config-key") → env "HEX_API_KEY" = "env-key" →
      (parseConfig raw env).apiKey = "config-key") := by
  refine ⟨fun raw env v h => by simp [parseConfig, getString, h],
    fun raw env h he => by simp [parseConfig, getString, h, he],
    fun raw env h he => by simp [parseConfig, getString, h, he],
    fun raw env v h => by simp [parseConfig, getString, h],
    fun raw env h he => by simp [parseConfig, getString, h, he],
    fun raw env b h => by simp [parseConfig, getBool, h],
    fun raw env h => by simp [parseConfig, getBool, h],
    fun raw env b h => by simp [parseConfig, getBool, h],
    fun raw env h => by simp [parseConfig, getBool, h],
    fun raw env v h => by simp [parseConfig, getString, h],
    fun raw env env' => ?_,
    fun raw h env => ?_, rfl,
    fun raw env h he => by simp [parseConfig, getString, h]⟩
  · show getString raw env "work_dir" "" "." = getString raw env' "work_dir" "" "."
    rw [getString, getString]
    simp
  · show getString raw env "work_dir" "" "." = "."
    rw [getString, h]
    simp

/-- Witness for C5 at concrete configurations. -/
theorem parseConfig_resolution_witness :
    (parseConfig (rawWithKey "config-key") (envWithKey "env-key")).apiKey = "config-key"
    ∧ parseConfig rawEmpty envEmpty = ⟨"", "", false, true, "."⟩
    ∧ (parseConfig rawEmpty (envWithKey "env-key-123")).apiKey = "env-key-123" :=
  ⟨parseConfig_resolution.2.2.2.2.2.2.2.2.2.2.2.2.2 (rawWithKey "config-key")
      (envWithKey "env-key") rfl rfl,
   parseConfig_resolution.2.2.2.2.2.2.2.2.2.2.2.2.1,
   parseConfig_resolution.2.1 rawEmpty (envWithKey "env-key-123") rfl (by decide)⟩

/-! ### C10: dry-run output is credential-independent -/

/-- A dry-run publish is insensitive to the credential field. -/
theorem publish_dryRun_apiKey_irrel (exec : Executor) (k₁ k₂ o : String) (r y : Bool)
    (w : String) (rctx : ReleaseContext) :
    publish exec ⟨k₁, o, r, y, w⟩ rctx true = publish exec ⟨k₂, o, r, y, w⟩ rctx true := by
  cases hw : validatePath w with
  | some e => simp [publish, hw]
  | none =>
    cases ho : validateOrganization o with
    | some e => simp [publish, hw, ho]
    | none => simp [publish, hw, ho, buildArgs]

/-- C10: a dry-run post-publish `Execute` gives identical responses for any
two raw configurations that differ only in `api_key` and any two
environments that differ only in `HEX_API_KEY`. -/
theorem execute_dryRun_credential_free (exec : Executor) (raw₁ raw₂ : RawConfig)
    (env₁ env₂ : Env) (rctx : ReleaseContext)
    (hraw : ∀ k, k ≠ "api_key" → raw₁ k = raw₂ k)
    (henv : ∀ k, k ≠ "HEX_API_KEY" → env₁ k = env₂ k) :
    Execute exec hookPostPublish raw₁ env₁ rctx true
      = Execute exec hookPostPublish raw₂ env₂ rctx true := by
  have horg : getString raw₁ env₁ "organization" "HEX_ORGANIZATION" ""
      = getString raw₂ env₂ "organization" "HEX_ORGANIZATION" "" := by
    rw [getString, getString, hraw _ (by decide), henv _ (by decide)]
  have hwd : getString raw₁ env₁ "work_dir" "" "."
      = getString raw₂ env₂ "work_dir" "" "." := by
    rw [getString, getString, hraw _ (by decide)]
    simp
  have hrep : getBool raw₁ "replace" false = getBool raw₂ "replace" false := by
    rw [getBool, getBool, hraw _ (by decide)]
  have hyes : getBool raw₁ "yes" true = getBool raw₂ "yes" true := by
    rw [getBool, getBool, hraw _ (by decide)]
  show publish exec (parseConfig raw₁ env₁) rctx true
      = publish exec (parseConfig raw₂ env₂) rctx true
  rw [parseConfig, parseConfig, horg, hwd, hrep, hyes]
  exact publish_dryRun_apiKey_irrel exec _ _ _ _ _ _ rctx

/-- Witness for C10 at concrete configurations differing only in the
credential. -/
theorem execute_dryRun_credential_free_witness :
    Execute (execOutput "") hookPostPublish (rawWithKey "key-one") (envWithKey "env-one")
        ⟨"1.0.0", "", "", ""⟩ true
      = Execute (execOutput "") hookPostPublish (rawWithKey "key-two") (envWithKey "env-two")
        ⟨"1.0.0", "", "", ""⟩ true :=
  execute_dryRun_credential_free (execOutput "") (rawWithKey "key-one") (rawWithKey "key-two")
    (envWithKey "env-one") (envWithKey "env-two") ⟨"1.0.0", "", "", ""⟩
    (fun k hk => by simp [rawWithKey, hk])
    (fun k hk => by simp [envWithKey, hk])

/-! ### C1: the work-directory validator

The validator cleans the path first and then checks the cleaned text, so we
characterize it by the components of the cleaned path. -/

/-- `splitSlash` never produces an empty list of components. -/
theorem splitSlash_ne_nil (l : List Char) : splitSlash l ≠ [] := by
  cases l with
  | nil => simp [splitSlash]
  | cons c t =>
    rw [splitSlash]
    by_cases h : c = '/'
    · simp [h]
    · rw [if_neg h]
      cases hs : splitSlash t with
      | nil => simp
      | cons hd tl => simp

/-- Components produced by `splitSlash` contain no separator. -/
theorem splitSlash_no_slash (l : List Char) : ∀ p ∈ splitSlash l, '/' ∉ p := by
  induction l with
  | nil =>
    intro p hp
    rw [splitSlash] at hp
    simp only [List.mem_singleton] at hp
    subst hp; simp
  | cons c t ih =>
    intro p hp
    rw [splitSlash] at hp
    by_cases h : c = '/'
    · rw [if_pos h] at hp
      rcases List.mem_cons.mp hp with h1 | h1
      · subst h1; simp
      · exact ih p h1
    · rw [if_neg h] at hp
      cases hs : splitSlash t with
      | nil => exact absurd hs (splitSlash_ne_nil t)
      | cons hd tl =>
        rw [hs] at hp
        rcases List.mem_cons.mp hp with h1 | h1
        · subst h1
          intro hm
          rcases List.mem_cons.mp hm with h2 | h2
          · exact h h2.symm
          · exact ih hd (by rw [hs]; exact List.mem_cons_self hd tl) h2
        · exact ih p (by rw [hs]; exact List.mem_cons_of_mem hd h1)

/-- `stepDots` preserves components being nonempty and separator-free. -/
theorem stepDots_ok (rooted : Bool) (acc : List (List Char)) (part : List Char)
    (hacc : ∀ p ∈ acc, p ≠ [] ∧ '/' ∉ p) (hp : part ≠ [] ∧ '/' ∉ part) :
    ∀ p ∈ stepDots rooted acc part, p ≠ [] ∧ '/' ∉ p := by
  intro p hmem
  rw [stepDots] at hmem
  split at hmem
  · split at hmem
    · split at hmem
      · rcases List.mem_append.mp hmem with h1 | h1
        · exact hacc p h1
        · simp only [List.mem_singleton] at h1
          subst h1; exact ⟨by decide, by decide⟩
      · exact hacc p ((List.dropLast_sublist acc).subset hmem)
    · split at hmem
      · exact hacc p hmem
      · rcases List.mem_append.mp hmem with h1 | h1
        · exact hacc p h1
        · simp only [List.mem_singleton] at h1
          subst h1; exact ⟨by decide, by decide⟩
  · rcases List.mem_append.mp hmem with h1 | h1
    · exact hacc p h1
    · simp only [List.mem_singleton] at h1
      subst h1; exact hp

/-- Folding `stepDots` preserves the component invariant. -/
theorem foldl_stepDots_ok (rooted : Bool) :
    ∀ (L acc : List (List Char)),
      (∀ p ∈ acc, p ≠ [] ∧ '/' ∉ p) → (∀ p ∈ L, p ≠ [] ∧ '/' ∉ p) →
      ∀ p ∈ L.foldl (stepDots rooted) acc, p ≠ [] ∧ '/' ∉ p := by
  intro L
  induction L with
  | nil => intro acc hacc _; exact hacc
  | cons q R ih =>
    intro acc hacc hL
    rw [List.foldl_cons]
    exact ih _ (stepDots_ok rooted acc q hacc (hL q (List.mem_cons_self q R)))
      (fun p hpm => hL p (List.mem_cons_of_mem q hpm))

/-- Every cleaned component is nonempty and separator-free. -/
theorem cleanParts_ok (rooted : Bool) (l : List Char) :
    ∀ p ∈ cleanParts rooted l, p ≠ [] ∧ '/' ∉ p := by
  rw [cleanParts]
  apply foldl_stepDots_ok
  · intro p hp; exact absurd hp (List.not_mem_nil p)
  · intro p hp
    have hmf := List.mem_filter.mp hp
    obtain ⟨hne, -⟩ := of_decide_eq_true hmf.2
    exact ⟨hne, splitSlash_no_slash l p hmf.1⟩

/-- `joinSlash` on a single component. -/
theorem joinSlash_single (p : List Char) : joinSlash [p] = p := rfl

/-- `joinSlash` on at least two components. -/
theorem joinSlash_cons_cons (p q : List Char) (r : List (List Char)) :
    joinSlash (p :: q :: r) = p ++ '/' :: joinSlash (q :: r) := rfl

/-- Cleaning preserves whether the path is absolute. -/
theorem isRooted_clean (l : List Char) : isRooted (clean l) = isRooted l := by
  cases hr : isRooted l with
  | true =>
    simp only [clean, hr, if_true]
    rfl
  | false =>
    simp only [clean, hr, Bool.false_eq_true, if_false]
    by_cases hP : cleanParts false l = []
    · simp [hP, isRooted]
    · rw [if_neg hP]
      cases hPc : cleanParts false l with
      | nil => exact absurd hPc hP
      | cons p R =>
        have hpok : p ≠ [] ∧ '/' ∉ p := by
          apply cleanParts_ok false l
          rw [hPc]; exact List.mem_cons_self p R
        obtain ⟨a, p', hpc⟩ : ∃ a p', p = a :: p' := by
          cases p with
          | nil => exact absurd rfl hpok.1
          | cons a p' => exact ⟨a, p', rfl⟩
        have ha : a ≠ '/' := by
          intro h; apply hpok.2; rw [hpc, h]; exact List.mem_cons_self '/' p'
        subst hpc
        cases R with
        | nil =>
          rw [joinSlash_single]
          simp [isRooted, ha]
        | cons q r =>
          rw [joinSlash_cons_cons, List.cons_append]
          simp [isRooted, ha]

/-- Appending a separator and more text does not affect whether a nonempty
component starts with `..`. -/
theorem hasPref_dd_append (p rest : List Char) (hp : p ≠ []) :
    hasPref dd (p ++ '/' :: rest) = hasPref dd p := by
  rcases p with _ | ⟨a, _ | ⟨b, t⟩⟩
  · exact absurd rfl hp
  · show hasPref dd (a :: '/' :: rest) = hasPref dd [a]
    simp [hasPref, dd]
  · show hasPref dd (a :: b :: (t ++ '/' :: rest)) = hasPref dd (a :: b :: t)
    simp [hasPref, dd]

/-- Scanning for `/..` may skip over a separator-free block. -/
theorem containsSeq_slash_skip (p rest : List Char) (hp : '/' ∉ p) :
    containsSeq ('/' :: dd) (p ++ rest) = containsSeq ('/' :: dd) rest := by
  induction p with
  | nil => rfl
  | cons a p' ih =>
    rw [List.mem_cons] at hp
    push_neg at hp
    obtain ⟨ha, hp'⟩ := hp
    show containsSeq ('/' :: dd) (a :: (p' ++ rest)) = _
    rw [containsSeq]
    have h1 : hasPref ('/' :: dd) (a :: (p' ++ rest)) = false := by
      show (decide ('/' = a) && hasPref dd (p' ++ rest)) = false
      simp [ha]
    rw [h1, ih hp', Bool.false_or]

/-- A separator-free string never contains `/..`. -/
theorem containsSeq_no_slash (l : List Char) (hl : '/' ∉ l) :
    containsSeq ('/' :: dd) l = false := by
  have h := containsSeq_slash_skip l [] hl
  rw [List.append_nil] at h
  rw [h]; rfl

/-- The two textual checks of `validatePath` on a joined component list are
equivalent to some component starting with `..`. -/
theorem check_eq_any (L : List (List Char)) (hOK : ∀ p ∈ L, p ≠ [] ∧ '/' ∉ p) :
    (hasPref dd (joinSlash L) || containsSeq ('/' :: dd) (joinSlash L))
      = L.any (fun p => hasPref dd p) := by
  induction L with
  | nil => rfl
  | cons p R ih =>
    have hp := hOK p (List.mem_cons_self p R)
    cases R with
    | nil =>
      rw [joinSlash_single, containsSeq_no_slash p hp.2]
      simp
    | cons q r =>
      rw [joinSlash_cons_cons, hasPref_dd_append p _ hp.1,
        containsSeq_slash_skip p _ hp.2, containsSeq]
      have h2 : hasPref ('/' :: dd) ('/' :: joinSlash (q :: r))
          = hasPref dd (joinSlash (q :: r)) := by
        show (decide ('/' = '/') && hasPref dd (joinSlash (q :: r))) = _
        simp
      rw [h2, ih (fun x hx => hOK x (List.mem_cons_of_mem p hx))]
      simp [List.any_cons]

/-- Counterexample to C1 as stated: `"a/../b"` has a `..` parent-directory
segment as a path component, yet `validatePath` accepts it, because the
path is cleaned (to `"b"`) before the traversal check. -/
theorem validatePath_counterexample :
    dd ∈ splitSlash ("a/../b").data ∧ validatePath "a/../b" = none := by decide

/-- C1 (amended): `validatePath` accepts exactly the empty path and the
relative paths none of whose cleaned components starts with `..`;
equivalently it rejects exactly the absolute paths and the paths whose
cleaned form retains a component starting with `..` (so `"a/../b"` is
accepted, while `".."`, `"../x"` and also `"..foo"` are rejected). -/
theorem validatePath_none_iff (s : String) :
    validatePath s = none ↔
      (s = "" ∨ (isRooted s.data = false
        ∧ ∀ p ∈ cleanParts false s.data, hasPref dd p = false)) := by
  by_cases hs : s = ""
  · subst hs; simp [validatePath]
  · simp only [validatePath, if_neg hs]
    cases hr : isRooted s.data with
    | true =>
      have hcr : isRooted (clean s.data) = true := by rw [isRooted_clean, hr]
      rw [if_pos hcr]
      refine iff_of_false (fun h => Option.noConfusion h) ?_
      rintro (h | ⟨h1, -⟩)
      · exact hs h
      · exact absurd h1 (by decide)
    | false =>
      have hcr : isRooted (clean s.data) = false := by rw [isRooted_clean, hr]
      rw [if_neg (by rw [hcr]; exact Bool.false_ne_true)]
      have hclean : clean s.data
          = if cleanParts false s.data = [] then ['.']
            else joinSlash (cleanParts false s.data) := by
        simp only [clean, hr, Bool.false_eq_true, if_false]
      by_cases hP : cleanParts false s.data = []
      · rw [hclean, if_pos hP]
        rw [if_neg (by decide : ¬((hasPref dd ['.'] || containsSeq ('/' :: dd) ['.']) = true))]
        refine iff_of_true rfl (Or.inr ⟨rfl, ?_⟩)
        intro p hp
        rw [hP] at hp
        exact absurd hp (List.not_mem_nil p)
      · rw [hclean, if_neg hP]
        have hkey := check_eq_any (cleanParts false s.data) (cleanParts_ok false s.data)
        cases hA : (cleanParts false s.data).any (fun p => hasPref dd p) with
        | true =>
          rw [if_pos (by rw [hkey]; exact hA)]
          refine iff_of_false (fun h => Option.noConfusion h) ?_
          rintro (h | ⟨-, h2⟩)
          · exact hs h
          · obtain ⟨p, hp, hf⟩ := List.any_eq_true.mp hA
            rw [h2 p hp] at hf
            exact absurd hf (by decide)
        | false =>
          rw [if_neg (by rw [hkey, hA]; exact Bool.false_ne_true)]
          refine iff_of_true rfl (Or.inr ⟨rfl, ?_⟩)
          intro p hp
          exact Bool.eq_false_iff.mpr (List.any_eq_false.mp hA p hp)

/-- Witness for the amended C1 at a concrete accepted path. -/
theorem validatePath_none_iff_witness : validatePath "a/b" = none :=
  (validatePath_none_iff "a/b").mpr (Or.inr ⟨by decide, by decide⟩)

/-- Witness for C4 at a concrete accepted organization. -/
theorem validateOrganization_none_iff_witness : validateOrganization "my-org" = none :=
  (validateOrganization_none_iff "my-org").mpr (by decide)

example : validatePath "packages/my-lib" = none := by decide
example : validatePath "a/b/c/d" = none := by decide
example : validatePath "packages/../../secret"
    = some "path traversal detected: cannot use \x27..\x27 to escape working directory" := by decide
example : validateOrganization "" = none := by decide
example : validateOrganization "Org_123-x" = none := by decide
